import Mathlib

/-!
Shallow embedding of the navigation reconciler in
packages/docutils/lib/nav.ts (the function updateNav and its helpers).

The embedding keeps the path-resolution collaborators abstract: the
reference directory (relReferenceDir in the source) and the relative
command directory (relCommandDir) are plain string parameters, the
directory listing is a list of entries carrying a name and a file flag,
and the parsed YAML nav is a list of entries that are either plain page
path strings or single-key mappings from a section header to a flat list
of path strings (the shape the source reads and writes).
-/

set_option autoImplicit false

namespace NavSpec

/-- One entry of the navigation tree: a plain page path, or a single-key
mapping from a section header to a flat list of page paths. -/
inductive NavEntry where
  | str (s : String)
  | sec (header : String) (children : List String)
deriving DecidableEq, Repr

/-- The options record consumed by updateNav, restricted to the fields the
diff-and-rewrite logic reads.  The dryRun field is declared by the source
(UpdateNavOpts) and destructured, but never read afterwards. -/
structure UpdateNavOpts where
  referenceHeader : String := "Reference"
  noReferenceHeader : Bool := false
  dryRun : Bool := false
deriving DecidableEq, Repr

/-- A directory entry as returned by the listing collaborator
(fs.readdir with withFileTypes), reduced to the two observations the
source makes: the name and whether the entry is a regular file. -/
structure DirEnt where
  name : String
  isFile : Bool
deriving DecidableEq, Repr

/-- startsWith on strings, expressed on the underlying character
sequences so that the kernel can evaluate it on concrete inputs. -/
def strStartsWith (p s : String) : Bool :=
  List.isPrefixOf p.data s.data

/-- endsWith on strings, expressed on the underlying character
sequences so that the kernel can evaluate it on concrete inputs. -/
def strEndsWith (p s : String) : Bool :=
  List.isSuffixOf p.data s.data

/-- The startsWith test of partitionRefArray: the entry starts with the
reference directory followed by the path separator. -/
def isRefPath (refDir s : String) : Bool :=
  strStartsWith (refDir ++ "/") s

/-- The same test lifted to a nav entry.  A mapping entry never passes the
startsWith test (lodash stringifies a non-string argument, and the result
of stringifying an object never begins with a path-like directory
followed by a slash). -/
def entryIsRef (refDir : String) : NavEntry → Bool
  | NavEntry.str s => isRefPath refDir s
  | NavEntry.sec _ _ => false

/-- findRefDictIndex fused with the lookup that immediately follows it in
the source: scan for the first mapping entry whose key is the configured
header and return its index together with its nested list.  The -1
sentinel of lodash findIndex becomes none. -/
def findRefSec (header : String) : List NavEntry → Option (Nat × List String)
  | [] => none
  | NavEntry.str _ :: rest =>
      (findRefSec header rest).map (fun p => (p.1 + 1, p.2))
  | NavEntry.sec h l :: rest =>
      if h == header then some (0, l)
      else (findRefSec header rest).map (fun p => (p.1 + 1, p.2))

/-- partitionRefArray on a list of strings: lodash partition returns the
passing entries and then the failing entries, each in input order. -/
def partitionRefArray (refDir : String) (arr : List String) :
    List String × List String :=
  (arr.filter (fun s => isRefPath refDir s),
   arr.filter (fun s => !isRefPath refDir s))

/-- partitionRefArray applied to the whole top-level nav (the branch taken
when no reference section index was found).  String entries are tested
with startsWith; mapping entries fall on the failing side and are carried
through as entries. -/
def partitionNav (refDir : String) (nav : List NavEntry) :
    List String × List NavEntry :=
  (nav.filterMap (fun e =>
      match e with
      | NavEntry.str s => if isRefPath refDir s then some s else none
      | NavEntry.sec _ _ => none),
   nav.filter (fun e => !entryIsRef refDir e))

/-- lodash xor: the unique values present in exactly one of the two
arrays.  Only emptiness of the result is consumed by the source. -/
def symmetricDiff (a b : List String) : List String :=
  (a.filter (fun x => !b.contains x)).dedup ++
    (b.filter (fun x => !a.contains x)).dedup

/-- isStringArray: the nav is a flat array of plain strings. -/
def isStringArray (nav : List NavEntry) : Bool :=
  nav.all (fun e =>
    match e with
    | NavEntry.str _ => true
    | NavEntry.sec _ _ => false)

/-- The diff-and-rewrite core of updateNav: given the already discovered
reference file paths, compute the rewritten nav and the
shouldWriteMkDocsYml flag.  Mirrors the source: navUsesHeaders is
noReferenceHeader or not isStringArray, the partition target is the
nested list of the first reference section when one exists and the whole
top-level nav otherwise, and a rewrite happens exactly when the symmetric
difference is non-empty. -/
def reconcile (opts : UpdateNavOpts) (refDir : String)
    (newRefFilepaths : List String) (nav : List NavEntry) :
    List NavEntry × Bool :=
  let navUsesHeaders := opts.noReferenceHeader || !isStringArray nav
  match findRefSec opts.referenceHeader nav with
  | some (idx, refArray) =>
      let pr := partitionRefArray refDir refArray
      if (symmetricDiff newRefFilepaths pr.1).isEmpty then (nav, false)
      else if navUsesHeaders then
        (nav.set idx
          (NavEntry.sec opts.referenceHeader (pr.2 ++ newRefFilepaths)), true)
      else
        (pr.2.map NavEntry.str ++ newRefFilepaths.map NavEntry.str, true)
  | none =>
      let pn := partitionNav refDir nav
      if (symmetricDiff newRefFilepaths pn.1).isEmpty then (nav, false)
      else if navUsesHeaders then
        (pn.2 ++ [NavEntry.sec opts.referenceHeader newRefFilepaths], true)
      else
        (pn.2 ++ newRefFilepaths.map NavEntry.str, true)

/-- The loop that pushes every regular-file directory entry ending in .md,
joined onto relCommandDir, in listing order. -/
def discoverRefFilepaths (relCommandDir : String) (ents : List DirEnt) :
    List String :=
  (ents.filter (fun e => e.isFile && strEndsWith ".md" e.name)).map
    (fun e => relCommandDir ++ "/" ++ e.name)

/-- The observable outcome of one updateNav call: the in-memory nav after
the call, whether the YAML write happened, and whether the empty-directory
warning with its early return was taken. -/
structure UpdateNavResult where
  nav : List NavEntry
  wrote : Bool
  warnedEmpty : Bool
deriving DecidableEq, Repr

/-- updateNav after path resolution and file reads: the early return on an
empty directory listing (the source tests the raw entry count, before any
Markdown filtering), then discovery, then the diff-and-rewrite core. -/
def updateNav (opts : UpdateNavOpts) (refDir relCommandDir : String)
    (ents : List DirEnt) (nav : List NavEntry) : UpdateNavResult :=
  if ents.isEmpty then
    { nav := nav, wrote := false, warnedEmpty := true }
  else
    let r := reconcile opts refDir (discoverRefFilepaths relCommandDir ents) nav
    { nav := r.1, wrote := r.2, warnedEmpty := false }

/-- The existing reference partition the discovered list is compared with:
the passing side of the partition of the section list when a section
exists, of the whole nav otherwise. -/
def existingRefPartition (header refDir : String) (nav : List NavEntry) :
    List String :=
  match findRefSec header nav with
  | some p => (partitionRefArray refDir p.2).1
  | none => (partitionNav refDir nav).1

/-- The top-level plain-string entries that are not reference paths, in
their input order.  This is the observable notion of non-reference
entries used to state order preservation. -/
def nonRefStrs (refDir : String) (nav : List NavEntry) : List String :=
  nav.filterMap (fun e =>
    match e with
    | NavEntry.str s => if isRefPath refDir s then none else some s
    | NavEntry.sec _ _ => none)

theorem toFinset_eq_iff_mem (a b : List String) :
    a.toFinset = b.toFinset ↔ ∀ x, x ∈ a ↔ x ∈ b := by
  constructor
  · intro h x
    rw [← List.mem_toFinset, h, List.mem_toFinset]
  · intro h
    apply Finset.ext
    intro x
    rw [List.mem_toFinset, List.mem_toFinset]
    exact h x

theorem symmetricDiff_eq_nil_iff (a b : List String) :
    symmetricDiff a b = [] ↔ ∀ x, x ∈ a ↔ x ∈ b := by
  unfold symmetricDiff
  rw [List.append_eq_nil, List.dedup_eq_nil, List.dedup_eq_nil,
    List.filter_eq_nil_iff, List.filter_eq_nil_iff]
  constructor
  · rintro ⟨h1, h2⟩ x
    constructor
    · intro hx
      have hh := h1 x hx
      simpa using hh
    · intro hx
      have hh := h2 x hx
      simpa using hh
  · intro h
    refine ⟨fun x hx => ?_, fun x hx => ?_⟩
    · simp [(h x).mp hx]
    · simp [(h x).mpr hx]

theorem symmetricDiff_isEmpty_of_mem_iff {a b : List String}
    (h : ∀ x, x ∈ a ↔ x ∈ b) : (symmetricDiff a b).isEmpty = true := by
  rw [List.isEmpty_iff]
  exact (symmetricDiff_eq_nil_iff a b).mpr h

theorem symmetricDiff_self_isEmpty (a : List String) :
    (symmetricDiff a a).isEmpty = true :=
  symmetricDiff_isEmpty_of_mem_iff (fun _ => Iff.rfl)

theorem findRefSec_get (header : String) (nav : List NavEntry) :
    ∀ (i : Nat) (l : List String), findRefSec header nav = some (i, l) →
      nav.get? i = some (NavEntry.sec header l) := by
  induction nav with
  | nil =>
    intro i l h
    simp [findRefSec] at h
  | cons e rest ih =>
    intro i l h
    cases e with
    | str s =>
      simp only [findRefSec] at h
      cases hp : findRefSec header rest with
      | none =>
        rw [hp] at h
        simp at h
      | some p =>
        rw [hp] at h
        simp only [Option.map_some', Option.some.injEq, Prod.mk.injEq] at h
        obtain ⟨h1, h2⟩ := h
        subst h2
        rw [← h1]
        simpa using ih p.1 p.2 hp
    | sec h0 l0 =>
      simp only [findRefSec] at h
      by_cases hh : (h0 == header) = true
      · rw [if_pos hh] at h
        simp only [Option.some.injEq, Prod.mk.injEq] at h
        obtain ⟨h1, h2⟩ := h
        subst h2
        rw [← h1]
        have : h0 = header := eq_of_beq hh
        simp [this]
      · rw [if_neg hh] at h
        cases hp : findRefSec header rest with
        | none =>
          rw [hp] at h
          simp at h
        | some p =>
          rw [hp] at h
          simp only [Option.map_some', Option.some.injEq, Prod.mk.injEq] at h
          obtain ⟨h1, h2⟩ := h
          subst h2
          rw [← h1]
          simpa using ih p.1 p.2 hp

theorem findRefSec_none_iff (header : String) (nav : List NavEntry) :
    findRefSec header nav = none ↔
      ∀ h0 ch, NavEntry.sec h0 ch ∈ nav → (h0 == header) = false := by
  induction nav with
  | nil => simp [findRefSec]
  | cons e rest ih =>
    cases e with
    | str s =>
      simp only [findRefSec, Option.map_eq_none', List.mem_cons]
      rw [ih]
      constructor
      · intro h h0 ch hm
        rcases hm with hm | hm
        · cases hm
        · exact h h0 ch hm
      · intro h h0 ch hm
        exact h h0 ch (Or.inr hm)
    | sec h0 l0 =>
      simp only [findRefSec]
      by_cases hh : (h0 == header) = true
      · rw [if_pos hh]
        constructor
        · intro h
          simp at h
        · intro h
          have hfalse := h h0 l0 (List.mem_cons_self _ _)
          rw [hh] at hfalse
          simp at hfalse
      · rw [if_neg hh]
        simp only [Option.map_eq_none']
        rw [ih]
        constructor
        · intro h h1 ch hm
          rcases List.mem_cons.mp hm with hm | hm
          · cases hm
            exact Bool.eq_false_iff.mpr hh
          · exact h h1 ch hm
        · intro h h1 ch hm
          exact h h1 ch (List.mem_cons_of_mem _ hm)

theorem findRefSec_set (header : String) (nav : List NavEntry) :
    ∀ (i : Nat) (l l' : List String), findRefSec header nav = some (i, l) →
      findRefSec header (nav.set i (NavEntry.sec header l')) = some (i, l') := by
  induction nav with
  | nil =>
    intro i l l' h
    simp [findRefSec] at h
  | cons e rest ih =>
    intro i l l' h
    cases e with
    | str s =>
      simp only [findRefSec] at h
      cases hp : findRefSec header rest with
      | none =>
        rw [hp] at h
        simp at h
      | some p =>
        rw [hp] at h
        simp only [Option.map_some', Option.some.injEq, Prod.mk.injEq] at h
        obtain ⟨h1, h2⟩ := h
        subst h2
        rw [← h1]
        simp only [List.set, findRefSec]
        rw [ih p.1 p.2 l' hp]
        rfl
    | sec h0 l0 =>
      simp only [findRefSec] at h
      by_cases hh : (h0 == header) = true
      · rw [if_pos hh] at h
        simp only [Option.some.injEq, Prod.mk.injEq] at h
        obtain ⟨h1, h2⟩ := h
        subst h2
        rw [← h1]
        simp [findRefSec]
      · rw [if_neg hh] at h
        cases hp : findRefSec header rest with
        | none =>
          rw [hp] at h
          simp at h
        | some p =>
          rw [hp] at h
          simp only [Option.map_some', Option.some.injEq, Prod.mk.injEq] at h
          obtain ⟨h1, h2⟩ := h
          subst h2
          rw [← h1]
          simp only [List.set, findRefSec, if_neg hh]
          rw [ih p.1 p.2 l' hp]
          rfl

theorem filterMap_guard (p : String → Bool) (l : List String) :
    (l.filterMap fun s => if p s then some s else none) = l.filter p := by
  induction l with
  | nil => rfl
  | cons x xs ih =>
    by_cases h : p x = true <;>
      simp [List.filterMap_cons, List.filter_cons, h, ih]

theorem filter_ref_of_nonref (rd : String) (l : List String) :
    (l.filter fun s => !isRefPath rd s).filter (fun s => isRefPath rd s) = [] := by
  rw [List.filter_eq_nil_iff]
  intro a ha
  have h2 := (List.mem_filter.mp ha).2
  simp at h2
  simp [h2]

theorem partitionNav_fst_nonref (rd : String) (nav : List NavEntry) :
    (partitionNav rd (nav.filter fun e => !entryIsRef rd e)).1 = [] := by
  simp only [partitionNav]
  rw [List.filterMap_eq_nil_iff]
  intro e he
  have h2 := (List.mem_filter.mp he).2
  cases e with
  | str s =>
    simp only [entryIsRef, Bool.not_eq_true'] at h2
    simp [h2]
  | sec h0 l0 => rfl

theorem partitionNav_fst_append (rd : String) (a b : List NavEntry) :
    (partitionNav rd (a ++ b)).1 = (partitionNav rd a).1 ++ (partitionNav rd b).1 := by
  simp [partitionNav, List.filterMap_append]

theorem partitionNav_fst_map_str (rd : String) :
    ∀ (D : List String), (∀ p ∈ D, isRefPath rd p = true) →
      (partitionNav rd (D.map NavEntry.str)).1 = D := by
  intro D
  induction D with
  | nil => intro _; rfl
  | cons x xs ih =>
    intro hD
    have hx : isRefPath rd x = true := hD x (List.mem_cons_self _ _)
    have hxs : ∀ p ∈ xs, isRefPath rd p = true :=
      fun p hp => hD p (List.mem_cons_of_mem _ hp)
    have ihx := ih hxs
    simp only [partitionNav] at ihx ⊢
    simp [List.filterMap_cons, hx, ihx]

theorem findRefSec_map_str_none (header : String) (D : List String) :
    findRefSec header (D.map NavEntry.str) = none := by
  induction D with
  | nil => rfl
  | cons x xs ih => simp [findRefSec, ih]

theorem findRefSec_filter_none (header : String) (nav : List NavEntry)
    (p : NavEntry → Bool) (h : findRefSec header nav = none) :
    findRefSec header (nav.filter p) = none := by
  rw [findRefSec_none_iff] at h ⊢
  intro h0 ch hm
  exact h h0 ch (List.mem_filter.mp hm).1

theorem findRefSec_none_of_isStringArray (header : String) (nav : List NavEntry)
    (h : isStringArray nav = true) : findRefSec header nav = none := by
  rw [findRefSec_none_iff]
  intro h0 ch hm
  have hh := List.all_eq_true.mp h _ hm
  simp at hh

theorem isStringArray_false_of_some (header : String) (nav : List NavEntry)
    (i : Nat) (l : List String) (h : findRefSec header nav = some (i, l)) :
    isStringArray nav = false := by
  have hmem : NavEntry.sec header l ∈ nav :=
    List.get?_mem (findRefSec_get header nav i l h)
  cases hsa : isStringArray nav with
  | false => rfl
  | true =>
    have hh := List.all_eq_true.mp hsa _ hmem
    simp at hh

theorem option_map_shift (x : Option (Nat × List String)) (n : Nat) :
    (x.map (fun p => (n + p.1, p.2))).map (fun p => (p.1 + 1, p.2)) =
      x.map (fun p => (n + 1 + p.1, p.2)) := by
  cases x with
  | none => rfl
  | some p =>
    show some (n + p.1 + 1, p.2) = some (n + 1 + p.1, p.2)
    rw [Nat.add_right_comm]

theorem findRefSec_append_none (header : String) (a b : List NavEntry)
    (ha : findRefSec header a = none) :
    findRefSec header (a ++ b) =
      (findRefSec header b).map (fun p => (a.length + p.1, p.2)) := by
  induction a with
  | nil =>
    cases hb : findRefSec header b <;> simp [hb]
  | cons e rest ih =>
    cases e with
    | str s =>
      simp only [findRefSec, Option.map_eq_none'] at ha
      have hr := ih ha
      simp only [List.cons_append, findRefSec, List.append_eq]
      rw [hr, option_map_shift]
      rfl
    | sec h0 l0 =>
      by_cases hh : (h0 == header) = true
      · simp [findRefSec, hh] at ha
      · simp only [findRefSec, if_neg hh, Option.map_eq_none'] at ha
        have hr := ih ha
        simp only [List.cons_append, findRefSec, if_neg hh, List.append_eq]
        rw [hr, option_map_shift]
        rfl

theorem reconcile_some_nodiff (opts : UpdateNavOpts) (rd : String)
    (D : List String) (nav : List NavEntry) (i : Nat) (l : List String)
    (h1 : findRefSec opts.referenceHeader nav = some (i, l))
    (h2 : (symmetricDiff D (l.filter fun s => isRefPath rd s)).isEmpty = true) :
    reconcile opts rd D nav = (nav, false) := by
  simp only [reconcile, h1, partitionRefArray, h2, if_true]

theorem reconcile_some_diff (opts : UpdateNavOpts) (rd : String)
    (D : List String) (nav : List NavEntry) (i : Nat) (l : List String)
    (h1 : findRefSec opts.referenceHeader nav = some (i, l))
    (h2 : (symmetricDiff D (l.filter fun s => isRefPath rd s)).isEmpty = false) :
    reconcile opts rd D nav =
      (nav.set i (NavEntry.sec opts.referenceHeader
        ((l.filter fun s => !isRefPath rd s) ++ D)), true) := by
  have hsa := isStringArray_false_of_some _ _ _ _ h1
  simp only [reconcile, h1, partitionRefArray, h2, hsa, Bool.not_false,
    Bool.or_true, if_true, Bool.false_eq_true, if_false]

theorem reconcile_none_nodiff (opts : UpdateNavOpts) (rd : String)
    (D : List String) (nav : List NavEntry)
    (h1 : findRefSec opts.referenceHeader nav = none)
    (h2 : (symmetricDiff D (partitionNav rd nav).1).isEmpty = true) :
    reconcile opts rd D nav = (nav, false) := by
  simp only [reconcile, h1, h2, if_true]

theorem reconcile_none_headered (opts : UpdateNavOpts) (rd : String)
    (D : List String) (nav : List NavEntry)
    (h1 : findRefSec opts.referenceHeader nav = none)
    (h2 : (symmetricDiff D (partitionNav rd nav).1).isEmpty = false)
    (h3 : (opts.noReferenceHeader || !isStringArray nav) = true) :
    reconcile opts rd D nav =
      ((partitionNav rd nav).2 ++ [NavEntry.sec opts.referenceHeader D], true) := by
  simp only [reconcile, h1, h2, h3, if_true, Bool.false_eq_true, if_false]

theorem reconcile_none_flat (opts : UpdateNavOpts) (rd : String)
    (D : List String) (nav : List NavEntry)
    (h1 : findRefSec opts.referenceHeader nav = none)
    (h2 : (symmetricDiff D (partitionNav rd nav).1).isEmpty = false)
    (h3 : (opts.noReferenceHeader || !isStringArray nav) = false) :
    reconcile opts rd D nav =
      ((partitionNav rd nav).2 ++ D.map NavEntry.str, true) := by
  simp only [reconcile, h1, h2, h3, Bool.false_eq_true, if_false]

theorem symmetricDiff_isEmpty_iff_toFinset (a b : List String) :
    (symmetricDiff a b).isEmpty = true ↔ a.toFinset = b.toFinset := by
  rw [List.isEmpty_iff, symmetricDiff_eq_nil_iff a b, ← toFinset_eq_iff_mem]

theorem nonRefStrs_cons_str_ref (rd s : String)
    (h : isRefPath rd s = true) (rest : List NavEntry) :
    nonRefStrs rd (NavEntry.str s :: rest) = nonRefStrs rd rest := by
  simp [nonRefStrs, List.filterMap_cons, h]

theorem nonRefStrs_cons_str_nonref (rd s : String)
    (h : isRefPath rd s = false) (rest : List NavEntry) :
    nonRefStrs rd (NavEntry.str s :: rest) = s :: nonRefStrs rd rest := by
  simp [nonRefStrs, List.filterMap_cons, h]

theorem nonRefStrs_cons_sec (rd h0 : String) (l0 : List String)
    (rest : List NavEntry) :
    nonRefStrs rd (NavEntry.sec h0 l0 :: rest) = nonRefStrs rd rest := by
  simp [nonRefStrs, List.filterMap_cons]

theorem nonRefStrs_append (rd : String) (a b : List NavEntry) :
    nonRefStrs rd (a ++ b) = nonRefStrs rd a ++ nonRefStrs rd b := by
  simp [nonRefStrs, List.filterMap_append]

theorem nonRefStrs_map_str_ref (rd : String) (D : List String)
    (hD : ∀ p ∈ D, isRefPath rd p = true) :
    nonRefStrs rd (D.map NavEntry.str) = [] := by
  simp only [nonRefStrs]
  rw [List.filterMap_eq_nil_iff]
  intro e he
  obtain ⟨s, hs, rfl⟩ := List.mem_map.mp he
  simp [hD s hs]

theorem nonRefStrs_filter_nonref (rd : String) (nav : List NavEntry) :
    nonRefStrs rd (nav.filter fun e => !entryIsRef rd e) = nonRefStrs rd nav := by
  induction nav with
  | nil => rfl
  | cons e rest ih =>
    cases e with
    | str s =>
      cases hs : isRefPath rd s with
      | true =>
        have hcond : (!entryIsRef rd (NavEntry.str s)) = false := by
          simp [entryIsRef, hs]
        rw [List.filter_cons]
        simp only [hcond, Bool.false_eq_true, if_false]
        rw [ih, nonRefStrs_cons_str_ref rd s hs]
      | false =>
        have hcond : (!entryIsRef rd (NavEntry.str s)) = true := by
          simp [entryIsRef, hs]
        rw [List.filter_cons]
        simp only [hcond, if_true]
        rw [nonRefStrs_cons_str_nonref rd s hs, nonRefStrs_cons_str_nonref rd s hs,
          ih]
    | sec h0 l0 =>
      have hcond : (!entryIsRef rd (NavEntry.sec h0 l0)) = true := by
        simp [entryIsRef]
      rw [List.filter_cons]
      simp only [hcond, if_true]
      rw [nonRefStrs_cons_sec, nonRefStrs_cons_sec, ih]

theorem nonRefStrs_set_sec (rd : String) (nav : List NavEntry) :
    ∀ (i : Nat) (h0 h1 : String) (l0 l1 : List String),
      nav.get? i = some (NavEntry.sec h0 l0) →
      nonRefStrs rd (nav.set i (NavEntry.sec h1 l1)) = nonRefStrs rd nav := by
  induction nav with
  | nil =>
    intro i h0 h1 l0 l1 h
    simp at h
  | cons e rest ih =>
    intro i h0 h1 l0 l1 h
    cases i with
    | zero =>
      simp only [List.get?] at h
      injection h with h
      subst h
      simp only [List.set]
      rw [nonRefStrs_cons_sec, nonRefStrs_cons_sec]
    | succ n =>
      simp only [List.get?] at h
      simp only [List.set]
      cases e with
      | str s =>
        cases hs : isRefPath rd s with
        | true =>
          rw [nonRefStrs_cons_str_ref rd s hs, nonRefStrs_cons_str_ref rd s hs,
            ih n h0 h1 l0 l1 h]
        | false =>
          rw [nonRefStrs_cons_str_nonref rd s hs,
            nonRefStrs_cons_str_nonref rd s hs, ih n h0 h1 l0 l1 h]
      | sec hh ll =>
        rw [nonRefStrs_cons_sec, nonRefStrs_cons_sec, ih n h0 h1 l0 l1 h]

theorem reconcile_wrote_iff (opts : UpdateNavOpts) (rd : String)
    (D : List String) (nav : List NavEntry) :
    ((reconcile opts rd D nav).2 = true ↔
        D.toFinset ≠ (existingRefPartition opts.referenceHeader rd nav).toFinset)
    ∧ (D.toFinset = (existingRefPartition opts.referenceHeader rd nav).toFinset →
        reconcile opts rd D nav = (nav, false)) := by
  cases hm : findRefSec opts.referenceHeader nav with
  | some p =>
    have hE : existingRefPartition opts.referenceHeader rd nav
        = p.2.filter (fun s => isRefPath rd s) := by
      simp [existingRefPartition, hm, partitionRefArray]
    rw [hE]
    cases hb : (symmetricDiff D (p.2.filter fun s => isRefPath rd s)).isEmpty with
    | true =>
      have hset := (symmetricDiff_isEmpty_iff_toFinset _ _).mp hb
      have heq := reconcile_some_nodiff opts rd D nav p.1 p.2 (by rw [hm]) hb
      rw [heq]
      exact ⟨iff_of_false (by simp) (not_not_intro hset), fun _ => rfl⟩
    | false =>
      have hset : ¬ D.toFinset = (p.2.filter fun s => isRefPath rd s).toFinset := by
        intro hc
        rw [← symmetricDiff_isEmpty_iff_toFinset] at hc
        rw [hb] at hc
        simp at hc
      have heq := reconcile_some_diff opts rd D nav p.1 p.2 (by rw [hm]) hb
      rw [heq]
      exact ⟨iff_of_true rfl hset, fun hc => absurd hc hset⟩
  | none =>
    have hE : existingRefPartition opts.referenceHeader rd nav
        = (partitionNav rd nav).1 := by
      simp [existingRefPartition, hm]
    rw [hE]
    cases hb : (symmetricDiff D (partitionNav rd nav).1).isEmpty with
    | true =>
      have hset := (symmetricDiff_isEmpty_iff_toFinset _ _).mp hb
      have heq := reconcile_none_nodiff opts rd D nav hm hb
      rw [heq]
      exact ⟨iff_of_false (by simp) (not_not_intro hset), fun _ => rfl⟩
    | false =>
      have hset : ¬ D.toFinset = (partitionNav rd nav).1.toFinset := by
        intro hc
        rw [← symmetricDiff_isEmpty_iff_toFinset] at hc
        rw [hb] at hc
        simp at hc
      cases h3 : (opts.noReferenceHeader || !isStringArray nav) with
      | true =>
        have heq := reconcile_none_headered opts rd D nav hm hb h3
        rw [heq]
        exact ⟨iff_of_true rfl hset, fun hc => absurd hc hset⟩
      | false =>
        have heq := reconcile_none_flat opts rd D nav hm hb h3
        rw [heq]
        exact ⟨iff_of_true rfl hset, fun hc => absurd hc hset⟩

/-- Claim C1 (code bug witness): with headers forced off
(noReferenceHeader = true), existing tree [intro.md] and discovered pages
[ref/a.md], the code takes the headered branch (navUsesHeaders is computed
as noReferenceHeader OR not-flat, so true) and synthesizes a Reference
mapping, instead of the flat list [intro.md, ref/a.md] promised by the
option documentation and the spec. -/
theorem noReferenceHeader_forces_headered_output :
    reconcile ⟨"Reference", true, false⟩ "ref" ["ref/a.md"]
        [NavEntry.str "intro.md"]
      = ([NavEntry.str "intro.md", NavEntry.sec "Reference" ["ref/a.md"]], true)
    ∧ (reconcile ⟨"Reference", true, false⟩ "ref" ["ref/a.md"]
        [NavEntry.str "intro.md"]).1
      ≠ [NavEntry.str "intro.md", NavEntry.str "ref/a.md"] :=
  ⟨by decide, by decide⟩

/-- Claim C2 counterexample: a commands directory holding one entry that is
not a Markdown file has zero Markdown files, yet the early exit is not
taken (the source only tests the raw entry count): no warning, the
discovered list is empty, and a write occurs that drops the existing
reference entry from the tree. -/
theorem updateNav_nonMd_entry_still_writes :
    discoverRefFilepaths "ref/commands" [⟨"readme.txt", true⟩] = []
    ∧ updateNav {} "ref" "ref/commands" [⟨"readme.txt", true⟩]
        [NavEntry.str "ref/a.md"]
      = ⟨[], true, false⟩ :=
  ⟨by decide, by decide⟩

/-- Claim C2 (amended): the warning plus early termination with no further
side effects happens exactly when the directory listing has zero entries
of any kind; the tree is left unchanged and no write occurs, regardless of
the prior tree content. -/
theorem updateNav_early_exit_on_empty_listing (opts : UpdateNavOpts)
    (rd rcd : String) (nav : List NavEntry) :
    updateNav opts rd rcd [] nav = ⟨nav, false, true⟩ := rfl

/-- Claim C3 counterexample: when a reference section mapping exists, a
top-level string that starts with the reference-directory prefix is not
part of the compared existing-reference partition and survives the
rewrite untouched at top level, contradicting the stated invariant. -/
theorem topLevel_ref_string_outside_section_untouched :
    isRefPath "ref" "ref/a.md" = true
    ∧ "ref/a.md" ∉ existingRefPartition "Reference" "ref"
        [NavEntry.sec "Reference" [], NavEntry.str "ref/a.md"]
    ∧ (reconcile {} "ref" ["ref/b.md"]
        [NavEntry.sec "Reference" [], NavEntry.str "ref/a.md"]).1
      = [NavEntry.sec "Reference" ["ref/b.md"], NavEntry.str "ref/a.md"] :=
  ⟨by decide, by decide, by decide⟩

/-- Claim C3 (amended): a top-level string with the reference prefix is
included in the existing-reference partition and removed from the kept
non-reference side only when no reference section mapping exists; when a
mapping exists, exactly the prefixed entries of its nested list form the
partition, and top-level prefixed strings outside the mapping are not
compared. -/
theorem partition_target_selection (headerS rd : String) (nav : List NavEntry) :
    (findRefSec headerS nav = none →
      ∀ s, NavEntry.str s ∈ nav → isRefPath rd s = true →
        s ∈ existingRefPartition headerS rd nav
        ∧ NavEntry.str s ∉ (partitionNav rd nav).2)
    ∧ (∀ i l s, findRefSec headerS nav = some (i, l) → s ∈ l →
        isRefPath rd s = true → s ∈ existingRefPartition headerS rd nav) := by
  constructor
  · intro hm s hs hr
    constructor
    · simp only [existingRefPartition, hm, partitionNav]
      exact List.mem_filterMap.mpr ⟨NavEntry.str s, hs, by simp [hr]⟩
    · intro hc
      have h2 := (List.mem_filter.mp hc).2
      simp [entryIsRef, hr] at h2
  · intro i l s hm hs hr
    simp only [existingRefPartition, hm, partitionRefArray]
    exact List.mem_filter.mpr ⟨hs, by simp [hr]⟩

/-- Witness for the amended C3 at a concrete flat tree. -/
theorem partition_target_selection_witness :
    "ref/a.md" ∈ existingRefPartition "Reference" "ref" [NavEntry.str "ref/a.md"]
    ∧ NavEntry.str "ref/a.md" ∉ (partitionNav "ref" [NavEntry.str "ref/a.md"]).2 :=
  (partition_target_selection "Reference" "ref" [NavEntry.str "ref/a.md"]).1
    (by decide) "ref/a.md" (by decide) (by decide)

/-- Claim C4: when the listing is non-empty (so the early exit is not
taken), a write occurs if and only if the discovered list and the existing
reference partition differ as sets; duplicates and order are immaterial
since the comparison is through toFinset, and when the sets agree the
nav is unchanged and no write happens. -/
theorem updateNav_wrote_iff_set_difference (opts : UpdateNavOpts)
    (rd rcd : String) (ents : List DirEnt) (nav : List NavEntry)
    (h : ents ≠ []) :
    ((updateNav opts rd rcd ents nav).wrote = true ↔
      (discoverRefFilepaths rcd ents).toFinset ≠
        (existingRefPartition opts.referenceHeader rd nav).toFinset)
    ∧ ((discoverRefFilepaths rcd ents).toFinset =
        (existingRefPartition opts.referenceHeader rd nav).toFinset →
      updateNav opts rd rcd ents nav = ⟨nav, false, false⟩) := by
  have hne : ents.isEmpty = false := by
    cases ents with
    | nil => exact absurd rfl h
    | cons a as => rfl
  have hu : updateNav opts rd rcd ents nav =
      ⟨(reconcile opts rd (discoverRefFilepaths rcd ents) nav).1,
       (reconcile opts rd (discoverRefFilepaths rcd ents) nav).2, false⟩ := by
    simp [updateNav, hne]
  have hr := reconcile_wrote_iff opts rd (discoverRefFilepaths rcd ents) nav
  rw [hu]
  constructor
  · exact hr.1
  · intro hc
    rw [hr.2 hc]

/-- Witness for C4 at a concrete input with one discovered page. -/
theorem updateNav_wrote_iff_set_difference_witness :
    ((updateNav {} "ref" "ref/commands" [⟨"a.md", true⟩] []).wrote = true ↔
      (discoverRefFilepaths "ref/commands" [⟨"a.md", true⟩]).toFinset ≠
        (existingRefPartition "Reference" "ref" []).toFinset)
    ∧ ((discoverRefFilepaths "ref/commands" [⟨"a.md", true⟩]).toFinset =
        (existingRefPartition "Reference" "ref" []).toFinset →
      updateNav {} "ref" "ref/commands" [⟨"a.md", true⟩] []
        = ⟨[], false, false⟩) :=
  updateNav_wrote_iff_set_difference {} "ref" "ref/commands"
    [⟨"a.md", true⟩] [] (by decide)

/-- Claim C5: when a reference section exists and the symmetric difference
is non-empty, the section is rewritten in place: its nested list becomes
the non-reference partition of the old list followed by the entire newly
discovered list (old reference entries discarded, not merged), and a
write occurs.  Headers are necessarily in use here because the presence of
the mapping makes the tree non-flat. -/
theorem reconcile_headered_replace (opts : UpdateNavOpts) (rd : String)
    (D : List String) (nav : List NavEntry) (i : Nat) (l : List String)
    (h1 : findRefSec opts.referenceHeader nav = some (i, l))
    (h2 : symmetricDiff D (l.filter fun s => isRefPath rd s) ≠ []) :
    reconcile opts rd D nav =
      (nav.set i (NavEntry.sec opts.referenceHeader
        ((l.filter fun s => !isRefPath rd s) ++ D)), true) := by
  apply reconcile_some_diff opts rd D nav i l h1
  cases hb : (symmetricDiff D (l.filter fun s => isRefPath rd s)).isEmpty with
  | false => rfl
  | true => exact absurd (List.isEmpty_iff.mp hb) h2

/-- Witness for C5: the scenario of the spec, tree
[intro.md, (Reference -> [ref/a.md, ref/b.md])] with discovered pages
[ref/a.md, ref/c.md]. -/
theorem reconcile_headered_replace_scenario :
    reconcile {} "ref" ["ref/a.md", "ref/c.md"]
        [NavEntry.str "intro.md",
         NavEntry.sec "Reference" ["ref/a.md", "ref/b.md"]]
      = ([NavEntry.str "intro.md",
          NavEntry.sec "Reference" ["ref/a.md", "ref/c.md"]], true) := by
  have h := reconcile_headered_replace {} "ref" ["ref/a.md", "ref/c.md"]
    [NavEntry.str "intro.md", NavEntry.sec "Reference" ["ref/a.md", "ref/b.md"]]
    1 ["ref/a.md", "ref/b.md"] (by decide) (by decide)
  exact h.trans (by decide)

/-- Claim C6: idempotence: if a run rewrites the tree, reconciling the
rewritten tree against the same discovered page set finds an empty
symmetric difference, so the second run changes nothing and does not
write.  The hypothesis records that every discovered path carries the
reference prefix, which holds of the discovery output by construction of
the relative command directory. -/
theorem reconcile_idempotent (opts : UpdateNavOpts) (rd : String)
    (D : List String) (nav : List NavEntry)
    (hD : ∀ p ∈ D, isRefPath rd p = true)
    (hw : (reconcile opts rd D nav).2 = true) :
    reconcile opts rd D (reconcile opts rd D nav).1
      = ((reconcile opts rd D nav).1, false) := by
  cases hm : findRefSec opts.referenceHeader nav with
  | some p =>
    cases hb : (symmetricDiff D (p.2.filter fun s => isRefPath rd s)).isEmpty with
    | true =>
      rw [reconcile_some_nodiff opts rd D nav p.1 p.2 (by rw [hm]) hb] at hw
      simp at hw
    | false =>
      have heq := reconcile_some_diff opts rd D nav p.1 p.2 (by rw [hm]) hb
      rw [heq]
      have hfind2 := findRefSec_set opts.referenceHeader nav p.1 p.2
        ((p.2.filter fun s => !isRefPath rd s) ++ D) (by rw [hm])
      apply reconcile_some_nodiff opts rd D _ p.1 _ hfind2
      have hfl : ((p.2.filter fun s => !isRefPath rd s) ++ D).filter
          (fun s => isRefPath rd s) = D := by
        rw [List.filter_append, filter_ref_of_nonref, List.nil_append,
          List.filter_eq_self.mpr hD]
      rw [hfl]
      exact symmetricDiff_self_isEmpty D
  | none =>
    cases hb : (symmetricDiff D (partitionNav rd nav).1).isEmpty with
    | true =>
      rw [reconcile_none_nodiff opts rd D nav hm hb] at hw
      simp at hw
    | false =>
      have hnone : findRefSec opts.referenceHeader (partitionNav rd nav).2 = none :=
        findRefSec_filter_none opts.referenceHeader nav _ hm
      cases h3 : (opts.noReferenceHeader || !isStringArray nav) with
      | true =>
        rw [reconcile_none_headered opts rd D nav hm hb h3]
        have hfind2 : findRefSec opts.referenceHeader
            ((partitionNav rd nav).2 ++ [NavEntry.sec opts.referenceHeader D])
            = some ((partitionNav rd nav).2.length, D) := by
          rw [findRefSec_append_none opts.referenceHeader _ _ hnone]
          simp [findRefSec]
        apply reconcile_some_nodiff opts rd D _ _ _ hfind2
        rw [List.filter_eq_self.mpr hD]
        exact symmetricDiff_self_isEmpty D
      | false =>
        rw [reconcile_none_flat opts rd D nav hm hb h3]
        have hnone2 : findRefSec opts.referenceHeader
            ((partitionNav rd nav).2 ++ D.map NavEntry.str) = none := by
          rw [findRefSec_append_none opts.referenceHeader _ _ hnone,
            findRefSec_map_str_none]
          rfl
        apply reconcile_none_nodiff opts rd D _ hnone2
        rw [partitionNav_fst_append]
        have e1 : (partitionNav rd ((partitionNav rd nav).2)).1 = [] :=
          partitionNav_fst_nonref rd nav
        have e2 : (partitionNav rd (D.map NavEntry.str)).1 = D :=
          partitionNav_fst_map_str rd D hD
        rw [e1, e2, List.nil_append]
        exact symmetricDiff_self_isEmpty D

/-- Witness for C6 at a concrete flat tree where the first run writes. -/
theorem reconcile_idempotent_witness :
    (∀ p ∈ (["ref/a.md"] : List String), isRefPath "ref" p = true)
    ∧ (reconcile {} "ref" ["ref/a.md"] [NavEntry.str "intro.md"]).2 = true
    ∧ reconcile {} "ref" ["ref/a.md"]
        (reconcile {} "ref" ["ref/a.md"] [NavEntry.str "intro.md"]).1
      = ((reconcile {} "ref" ["ref/a.md"] [NavEntry.str "intro.md"]).1, false) :=
  ⟨by decide, by decide,
    reconcile_idempotent {} "ref" ["ref/a.md"] [NavEntry.str "intro.md"]
      (by decide) (by decide)⟩

/-- Claim C7: order preservation of the non-reference entries, in all
rewrite branches.  The top-level non-reference strings of the output are
exactly those of the input in input order; in the headered in-place branch
the rewritten section list is the order-preserving non-reference filter of
the old section list followed by the discovered list; in the no-section
branches the output starts with the non-reference partition of the whole
tree in input order. -/
theorem reconcile_preserves_nonref_order (opts : UpdateNavOpts) (rd : String)
    (D : List String) (nav : List NavEntry)
    (hD : ∀ p ∈ D, isRefPath rd p = true) :
    nonRefStrs rd (reconcile opts rd D nav).1 = nonRefStrs rd nav
    ∧ (∀ i l, findRefSec opts.referenceHeader nav = some (i, l) →
        (reconcile opts rd D nav).2 = true →
        (reconcile opts rd D nav).1
          = nav.set i (NavEntry.sec opts.referenceHeader
              ((l.filter fun s => !isRefPath rd s) ++ D)))
    ∧ (findRefSec opts.referenceHeader nav = none →
        (reconcile opts rd D nav).2 = true →
        ∃ tail, (reconcile opts rd D nav).1
          = (nav.filter fun e => !entryIsRef rd e) ++ tail) := by
  refine ⟨?_, ?_, ?_⟩
  · cases hm : findRefSec opts.referenceHeader nav with
    | some p =>
      cases hb : (symmetricDiff D (p.2.filter fun s => isRefPath rd s)).isEmpty with
      | true =>
        rw [reconcile_some_nodiff opts rd D nav p.1 p.2 (by rw [hm]) hb]
      | false =>
        rw [reconcile_some_diff opts rd D nav p.1 p.2 (by rw [hm]) hb]
        exact nonRefStrs_set_sec rd nav p.1 opts.referenceHeader
          opts.referenceHeader p.2 ((p.2.filter fun s => !isRefPath rd s) ++ D)
          (findRefSec_get opts.referenceHeader nav p.1 p.2 (by rw [hm]))
    | none =>
      cases hb : (symmetricDiff D (partitionNav rd nav).1).isEmpty with
      | true =>
        rw [reconcile_none_nodiff opts rd D nav hm hb]
      | false =>
        cases h3 : (opts.noReferenceHeader || !isStringArray nav) with
        | true =>
          rw [reconcile_none_headered opts rd D nav hm hb h3]
          show nonRefStrs rd ((partitionNav rd nav).2 ++
            [NavEntry.sec opts.referenceHeader D]) = nonRefStrs rd nav
          rw [nonRefStrs_append]
          have hsec : nonRefStrs rd [NavEntry.sec opts.referenceHeader D] = [] := by
            rw [nonRefStrs_cons_sec]
            rfl
          rw [hsec, List.append_nil]
          exact nonRefStrs_filter_nonref rd nav
        | false =>
          rw [reconcile_none_flat opts rd D nav hm hb h3]
          show nonRefStrs rd ((partitionNav rd nav).2 ++ D.map NavEntry.str)
            = nonRefStrs rd nav
          rw [nonRefStrs_append, nonRefStrs_map_str_ref rd D hD, List.append_nil]
          exact nonRefStrs_filter_nonref rd nav
  · intro i l hm hw
    cases hb : (symmetricDiff D (l.filter fun s => isRefPath rd s)).isEmpty with
    | true =>
      rw [reconcile_some_nodiff opts rd D nav i l hm hb] at hw
      simp at hw
    | false =>
      rw [reconcile_some_diff opts rd D nav i l hm hb]
  · intro hm hw
    cases hb : (symmetricDiff D (partitionNav rd nav).1).isEmpty with
    | true =>
      rw [reconcile_none_nodiff opts rd D nav hm hb] at hw
      simp at hw
    | false =>
      cases h3 : (opts.noReferenceHeader || !isStringArray nav) with
      | true =>
        refine ⟨[NavEntry.sec opts.referenceHeader D], ?_⟩
        rw [reconcile_none_headered opts rd D nav hm hb h3]
        rfl
      | false =>
        refine ⟨D.map NavEntry.str, ?_⟩
        rw [reconcile_none_flat opts rd D nav hm hb h3]
        rfl

/-- Witness for C7 at a concrete flat tree. -/
theorem reconcile_preserves_nonref_order_witness :
    nonRefStrs "ref" (reconcile {} "ref" ["ref/x.md"]
        [NavEntry.str "intro.md", NavEntry.str "ref/old.md"]).1
      = nonRefStrs "ref" [NavEntry.str "intro.md", NavEntry.str "ref/old.md"]
    ∧ (∀ i l, findRefSec "Reference"
          [NavEntry.str "intro.md", NavEntry.str "ref/old.md"] = some (i, l) →
        (reconcile {} "ref" ["ref/x.md"]
          [NavEntry.str "intro.md", NavEntry.str "ref/old.md"]).2 = true →
        (reconcile {} "ref" ["ref/x.md"]
          [NavEntry.str "intro.md", NavEntry.str "ref/old.md"]).1
          = [NavEntry.str "intro.md", NavEntry.str "ref/old.md"].set i
              (NavEntry.sec "Reference"
                ((l.filter fun s => !isRefPath "ref" s) ++ ["ref/x.md"])))
    ∧ (findRefSec "Reference"
          [NavEntry.str "intro.md", NavEntry.str "ref/old.md"] = none →
        (reconcile {} "ref" ["ref/x.md"]
          [NavEntry.str "intro.md", NavEntry.str "ref/old.md"]).2 = true →
        ∃ tail, (reconcile {} "ref" ["ref/x.md"]
          [NavEntry.str "intro.md", NavEntry.str "ref/old.md"]).1
          = ([NavEntry.str "intro.md", NavEntry.str "ref/old.md"].filter
              fun e => !entryIsRef "ref" e) ++ tail) :=
  reconcile_preserves_nonref_order {} "ref" ["ref/x.md"]
    [NavEntry.str "intro.md", NavEntry.str "ref/old.md"] (by decide)

/-- Claim C8: the dryRun flag is accepted but never consulted: the computed
mutation, the write decision, and the early-exit behavior of updateNav are
identical for any two values of the flag, all other inputs equal. -/
theorem updateNav_dryRun_irrelevant (rh : String) (nrh b1 b2 : Bool)
    (rd rcd : String) (ents : List DirEnt) (nav : List NavEntry) :
    updateNav ⟨rh, nrh, b1⟩ rd rcd ents nav
      = updateNav ⟨rh, nrh, b2⟩ rd rcd ents nav := rfl

/-- Claim C9: frame property of the headered in-place rewrite: when a
reference section exists and a write happens, only that one top-level slot
changes; every other entry keeps its value and position, the tree length
is unchanged, and the changed slot keeps its index and header with only
the nested list replaced. -/
theorem reconcile_frame_other_entries (opts : UpdateNavOpts) (rd : String)
    (D : List String) (nav : List NavEntry) (i : Nat) (l : List String)
    (h1 : findRefSec opts.referenceHeader nav = some (i, l))
    (hw : (reconcile opts rd D nav).2 = true) :
    (reconcile opts rd D nav).1.length = nav.length
    ∧ (∀ j, j ≠ i → (reconcile opts rd D nav).1.get? j = nav.get? j)
    ∧ (reconcile opts rd D nav).1.get? i
        = some (NavEntry.sec opts.referenceHeader
            ((l.filter fun s => !isRefPath rd s) ++ D)) := by
  have hg := findRefSec_get opts.referenceHeader nav i l h1
  have hlt : i < nav.length := by
    by_contra hc
    push_neg at hc
    rw [List.get?_eq_none.mpr hc] at hg
    cases hg
  cases hb : (symmetricDiff D (l.filter fun s => isRefPath rd s)).isEmpty with
  | true =>
    rw [reconcile_some_nodiff opts rd D nav i l h1 hb] at hw
    simp at hw
  | false =>
    rw [reconcile_some_diff opts rd D nav i l h1 hb]
    refine ⟨List.length_set nav i _, fun j hj => ?_, ?_⟩
    · exact List.get?_set_ne _ nav hj.symm
    · show (nav.set i (NavEntry.sec opts.referenceHeader
          ((l.filter fun s => !isRefPath rd s) ++ D))).get? i = _
      rw [List.get?_eq_getElem?]
      exact List.getElem?_set_eq_of_lt _ hlt

/-- Witness for C9 at the two-entry sectioned tree. -/
theorem reconcile_frame_other_entries_witness :
    (reconcile {} "ref" ["ref/n.md"]
        [NavEntry.str "intro.md", NavEntry.sec "Reference" ["ref/o.md"]]).1.length
      = ([NavEntry.str "intro.md",
          NavEntry.sec "Reference" ["ref/o.md"]] : List NavEntry).length
    ∧ (∀ j, j ≠ 1 →
        (reconcile {} "ref" ["ref/n.md"]
          [NavEntry.str "intro.md", NavEntry.sec "Reference" ["ref/o.md"]]).1.get? j
          = ([NavEntry.str "intro.md",
              NavEntry.sec "Reference" ["ref/o.md"]] : List NavEntry).get? j)
    ∧ (reconcile {} "ref" ["ref/n.md"]
        [NavEntry.str "intro.md", NavEntry.sec "Reference" ["ref/o.md"]]).1.get? 1
        = some (NavEntry.sec "Reference"
            ((["ref/o.md"].filter fun s => !isRefPath "ref" s) ++ ["ref/n.md"])) :=
  reconcile_frame_other_entries {} "ref" ["ref/n.md"]
    [NavEntry.str "intro.md", NavEntry.sec "Reference" ["ref/o.md"]]
    1 ["ref/o.md"] (by decide) (by decide)

/-- Claim C10: with an empty nav (the source defaults a missing nav key to
the empty list), the default header options, and at least one Markdown
file discovered, the rewritten tree is exactly the flat list of discovered
paths and no header section is synthesized, because the empty list counts
as a flat string array for style detection. -/
theorem updateNav_empty_nav_flat_list (rh : String) (b : Bool)
    (rd rcd : String) (ents : List DirEnt)
    (h : discoverRefFilepaths rcd ents ≠ []) :
    updateNav ⟨rh, false, b⟩ rd rcd ents [] =
      ⟨(discoverRefFilepaths rcd ents).map NavEntry.str, true, false⟩ := by
  have hne : ents.isEmpty = false := by
    cases ents with
    | nil => exact absurd rfl h
    | cons a as => rfl
  have hsd : symmetricDiff (discoverRefFilepaths rcd ents)
      (partitionNav rd ([] : List NavEntry)).1
      = (discoverRefFilepaths rcd ents).dedup := by
    simp [symmetricDiff, partitionNav]
  have h2 : (symmetricDiff (discoverRefFilepaths rcd ents)
      (partitionNav rd ([] : List NavEntry)).1).isEmpty = false := by
    rw [hsd]
    cases hd : (discoverRefFilepaths rcd ents).dedup.isEmpty with
    | false => rfl
    | true =>
      exact absurd ((List.dedup_eq_nil _).mp (List.isEmpty_iff.mp hd)) h
  have heq := reconcile_none_flat ⟨rh, false, b⟩ rd
    (discoverRefFilepaths rcd ents) [] rfl h2 rfl
  simp only [updateNav, hne, Bool.false_eq_true, if_false]
  rw [heq]
  rfl

/-- Witness for C10 with a single discovered Markdown file. -/
theorem updateNav_empty_nav_flat_list_witness :
    updateNav ⟨"Reference", false, false⟩ "ref" "ref/commands"
        [⟨"a.md", true⟩] []
      = ⟨(discoverRefFilepaths "ref/commands" [⟨"a.md", true⟩]).map NavEntry.str,
         true, false⟩ :=
  updateNav_empty_nav_flat_list "Reference" false "ref" "ref/commands"
    [⟨"a.md", true⟩] (by decide)

end NavSpec
